import Mathlib

/-!
Verification of the tool-augmented conversational assistant orchestrator
(backend route `/chat` in `src/routes/assistant.ts`), shallowly embedded
in Lean.  JavaScript objects and `JSON.parse` results are modelled by the
`JVal` inductive; numeric literals are modelled as integers (the claims
under study never involve fractional numbers).  Strings are modelled as
Lean strings; JavaScript's UTF-16 code-unit slicing is modelled as
character slicing.
-/

namespace Assistant

/-- JSON-like values: the results of `JSON.parse` and the run-time shapes
handled by the route (tool arguments, tool payloads, message content). -/
inductive JVal where
  | null
  | bool (b : Bool)
  | num (n : Int)
  | str (s : String)
  | arr (elems : List JVal)
  | obj (fields : List (String × JVal))
deriving Repr

/-- Left bracket and right bracket characters of a JSON object, kept as
named constants. -/
def lbrace : Char := Char.ofNat 123

def rbrace : Char := Char.ofNat 125

/-- JavaScript property lookup on an object's field list (objects built by
the parser and by assignment keep at most one binding per key, so the
first match is the binding). -/
def objLookup (fields : List (String × JVal)) (k : String) : Option JVal :=
  match fields with
  | [] => none
  | (k', v) :: rest => if k' = k then some v else objLookup rest k

/-- JavaScript property assignment `o[k] = v`: overwrite the existing
binding in place, otherwise append a new one (insertion order kept). -/
def objSet (fields : List (String × JVal)) (k : String) (v : JVal) :
    List (String × JVal) :=
  match fields with
  | [] => [(k, v)]
  | (k', v') :: rest =>
      if k' = k then (k, v) :: rest else (k', v') :: objSet rest k v

/-- JavaScript truthiness of a value. -/
def truthy (v : JVal) : Bool :=
  match v with
  | .null => false
  | .bool b => b
  | .num n => n != 0
  | .str s => s ≠ ""
  | .arr _ => true
  | .obj _ => true

/-- Truthiness of `o.k` where a missing property is `undefined` (falsy). -/
def truthyOpt (v : Option JVal) : Bool :=
  match v with
  | none => false
  | some x => truthy x

/-- `item?.k`: property access on an arbitrary value; non-objects have no
own properties here, and missing properties read as `undefined`. -/
def jvGet (v : JVal) (k : String) : Option JVal :=
  match v with
  | .obj fields => objLookup fields k
  | _ => none

/-! ### A model of `JSON.parse` (integer numerals only) -/

def isJsonWs (c : Char) : Bool :=
  c = ' ' || c = '\t' || c = '\n' || c = '\r'

def skipWs (cs : List Char) : List Char :=
  match cs with
  | [] => []
  | c :: rest => if isJsonWs c then skipWs rest else c :: rest

def isDigitCh (c : Char) : Bool :=
  48 ≤ c.toNat && c.toNat ≤ 57

def digitsToNat (acc : Nat) (cs : List Char) : Nat × List Char :=
  match cs with
  | [] => (acc, [])
  | c :: rest =>
      if isDigitCh c then digitsToNat (acc * 10 + (c.toNat - 48)) rest
      else (acc, c :: rest)

def hexVal (c : Char) : Option Nat :=
  let n := c.toNat
  if 48 ≤ n && n ≤ 57 then some (n - 48)
  else if 97 ≤ n && n ≤ 102 then some (n - 87)
  else if 65 ≤ n && n ≤ 70 then some (n - 55)
  else none

/-- Parse the remainder of a JSON string literal (the opening quote has
been consumed). -/
def parseStringRest (fuel : Nat) (acc : List Char) (cs : List Char) :
    Option (String × List Char) :=
  match fuel, cs with
  | 0, _ => none
  | _, [] => none
  | fuel + 1, c :: rest =>
      if c = '"' then some (String.mk acc.reverse, rest)
      else if c = '\\' then
        match rest with
        | [] => none
        | e :: rest' =>
            if e = '"' then parseStringRest fuel ('"' :: acc) rest'
            else if e = '\\' then parseStringRest fuel ('\\' :: acc) rest'
            else if e = '/' then parseStringRest fuel ('/' :: acc) rest'
            else if e = 'b' then parseStringRest fuel (Char.ofNat 8 :: acc) rest'
            else if e = 'f' then parseStringRest fuel (Char.ofNat 12 :: acc) rest'
            else if e = 'n' then parseStringRest fuel ('\n' :: acc) rest'
            else if e = 'r' then parseStringRest fuel ('\r' :: acc) rest'
            else if e = 't' then parseStringRest fuel ('\t' :: acc) rest'
            else if e = 'u' then
              match rest' with
              | h1 :: h2 :: h3 :: h4 :: rest'' =>
                  match hexVal h1, hexVal h2, hexVal h3, hexVal h4 with
                  | some a, some b, some c', some d =>
                      parseStringRest fuel
                        (Char.ofNat (a * 4096 + b * 256 + c' * 16 + d) :: acc) rest''
                  | _, _, _, _ => none
              | _ => none
            else none
      else parseStringRest fuel (c :: acc) rest

mutual

/-- Parse one JSON value from the character stream. -/
def parseVal (fuel : Nat) (cs : List Char) : Option (JVal × List Char) :=
  match fuel with
  | 0 => none
  | fuel + 1 =>
    match skipWs cs with
    | [] => none
    | c :: rest =>
        if c = 'n' then
          match rest with
          | 'u' :: 'l' :: 'l' :: r => some (.null, r)
          | _ => none
        else if c = 't' then
          match rest with
          | 'r' :: 'u' :: 'e' :: r => some (.bool true, r)
          | _ => none
        else if c = 'f' then
          match rest with
          | 'a' :: 'l' :: 's' :: 'e' :: r => some (.bool false, r)
          | _ => none
        else if c = '"' then
          match parseStringRest (cs.length + 1) [] rest with
          | some (s, r) => some (.str s, r)
          | none => none
        else if c = '-' then
          match rest with
          | d :: _ =>
              if isDigitCh d then
                let (n, r) := digitsToNat 0 rest
                some (.num (-(Int.ofNat n)), r)
              else none
          | [] => none
        else if isDigitCh c then
          let (n, r) := digitsToNat 0 (c :: rest)
          some (.num (Int.ofNat n), r)
        else if c = '[' then
          match skipWs rest with
          | ']' :: r => some (.arr [], r)
          | other => parseArrElems fuel [] other
        else if c = lbrace then
          match skipWs rest with
          | b :: r => if b = rbrace then some (.obj [], r) else parseObjFields fuel [] (b :: r)
          | [] => none
        else none

/-- Parse the elements of a non-empty JSON array (after `[`). -/
def parseArrElems (fuel : Nat) (acc : List JVal) (cs : List Char) :
    Option (JVal × List Char) :=
  match fuel with
  | 0 => none
  | fuel + 1 =>
    match parseVal fuel cs with
    | none => none
    | some (v, rest) =>
        match skipWs rest with
        | ',' :: r => parseArrElems fuel (v :: acc) r
        | ']' :: r => some (.arr (v :: acc).reverse, r)
        | _ => none

/-- Parse the fields of a non-empty JSON object (after the opening
bracket); later duplicate keys overwrite earlier ones as in JavaScript. -/
def parseObjFields (fuel : Nat) (acc : List (String × JVal)) (cs : List Char) :
    Option (JVal × List Char) :=
  match fuel with
  | 0 => none
  | fuel + 1 =>
    match skipWs cs with
    | '"' :: rest =>
        match parseStringRest (cs.length + 1) [] rest with
        | none => none
        | some (k, r1) =>
            match skipWs r1 with
            | ':' :: r2 =>
                match parseVal fuel r2 with
                | none => none
                | some (v, r3) =>
                    let acc' := objSet acc k v
                    match skipWs r3 with
                    | ',' :: r4 => parseObjFields fuel acc' r4
                    | b :: r4 =>
                        if b = rbrace then some (.obj acc', r4) else none
                    | [] => none
            | _ => none
    | _ => none

end

/-- The model of `JSON.parse`: `none` is a thrown `SyntaxError`. -/
def jsonParse (s : String) : Option JVal :=
  match parseVal (s.length + 1) s.data with
  | none => none
  | some (v, rest) => if skipWs rest = [] then some v else none

/-! ### A model of `JSON.stringify` -/

def hexDigitCh (n : Nat) : Char :=
  if n < 10 then Char.ofNat (48 + n) else Char.ofNat (87 + n)

/-- Escape one character of a JSON string literal. -/
def escChar (c : Char) : List Char :=
  if c = '"' then ['\\', '"']
  else if c = '\\' then ['\\', '\\']
  else if c = '\n' then ['\\', 'n']
  else if c = '\r' then ['\\', 'r']
  else if c = '\t' then ['\\', 't']
  else if c = Char.ofNat 8 then ['\\', 'b']
  else if c = Char.ofNat 12 then ['\\', 'f']
  else if c.toNat < 32 then
    ['\\', 'u', '0', '0', hexDigitCh (c.toNat / 16), hexDigitCh (c.toNat % 16)]
  else [c]

def quoteChars (s : String) : List Char :=
  '"' :: (s.data.flatMap escChar) ++ ['"']

mutual

/-- Characters of `JSON.stringify` of a value. -/
def stringifyChars (v : JVal) : List Char :=
  match v with
  | .null => ("null" : String).data
  | .bool true => ("true" : String).data
  | .bool false => ("false" : String).data
  | .num n => (toString n).data
  | .str s => quoteChars s
  | .arr xs => '[' :: stringifyArr xs ++ [']']
  | .obj fs => lbrace :: stringifyObj fs ++ [rbrace]

def stringifyArr (xs : List JVal) : List Char :=
  match xs with
  | [] => []
  | [x] => stringifyChars x
  | x :: y :: rest => stringifyChars x ++ ',' :: stringifyArr (y :: rest)

def stringifyObj (fs : List (String × JVal)) : List Char :=
  match fs with
  | [] => []
  | [(k, v)] => quoteChars k ++ ':' :: stringifyChars v
  | (k, v) :: f :: rest =>
      quoteChars k ++ ':' :: stringifyChars v ++ ',' :: stringifyObj (f :: rest)

end

/-- The model of `JSON.stringify` on the values the route serializes. -/
def jsonStringify (v : JVal) : String :=
  String.mk (stringifyChars v)

/-! ### Messages and sanitization (`sanitizeMessages`, `ensureString`) -/

/-- A raw caller-supplied chat message as it arrives in the request body:
the role is an arbitrary string and the content an arbitrary JSON value
(the route itself checks both). -/
structure RawMsg where
  role : String
  content : JVal
deriving Repr

/-- A sanitized `ChatMessagePayload` (`role` is `"user"` or
`"assistant"`, `content` a string). -/
structure ChatMessagePayload where
  role : String
  content : String
deriving Repr, DecidableEq

/-- JavaScript `s.slice(0, n)` (code units modelled as characters). -/
def jsSlice (s : String) (n : Nat) : String :=
  String.mk (s.data.take n)

/-- The whitespace class of JavaScript `String.prototype.trim` (space,
tab, line terminators, vertical tab, form feed, no-break space, BOM). -/
def isJsWsChar (c : Char) : Bool :=
  c = ' ' || c = '\t' || c = '\n' || c = '\r' || c = Char.ofNat 11 ||
    c = Char.ofNat 12 || c = Char.ofNat 160 || c = Char.ofNat 65279

/-- JavaScript `s.trim()`. -/
def jsTrim (s : String) : String :=
  String.mk
    (((s.data.dropWhile isJsWsChar).reverse.dropWhile isJsWsChar).reverse)

/-- `sanitizeMessages`: keep the trailing 12 messages, coerce every role
other than `"assistant"` to `"user"`, truncate string content to 4000
characters and replace non-string content by `""`. -/
def sanitizeMessages (messages : List RawMsg) : List ChatMessagePayload :=
  let trimmed := messages.drop (messages.length - 12)
  trimmed.map fun message =>
    { role := if message.role = "assistant" then "assistant" else "user"
      content :=
        match message.content with
        | .str s => jsSlice s 4000
        | _ => "" }

/-- `ensureString`: trim a string value, map anything else to `""`. -/
def ensureString (value : JVal) : String :=
  match value with
  | .str s => jsTrim s
  | _ => ""

/-- The validation predicate applied by the route to each caller message
(`messages.find(...)`): true when the message is invalid. -/
def invalidChatMessage (m : RawMsg) : Bool :=
  (m.role ≠ "user" && m.role ≠ "assistant") ||
    (match m.content with
     | .str s => jsTrim s = ""
     | _ => true)

/-- `buildSystemPrompt` as in the source. -/
def buildSystemPrompt : String :=
  String.intercalate "\n"
    [ "You are a capable assistant with access to external tools via MCP.",
      "When you use a tool, always explain what you did and what the result was.",
      "After calling a tool, you MUST provide a natural language response describing the action and outcome.",
      "Never return an empty response - always acknowledge what happened.",
      "If a tool call fails, explain the error to the user in a helpful way." ]

/-! ### SHA-256 and base64url (the `crypto` digest used by the issuer) -/

def w32 (x : Nat) : Nat := x % 4294967296

def rotr32 (n x : Nat) : Nat :=
  w32 ((x >>> n) ||| (x <<< (32 - n)))

def bigSigma0 (x : Nat) : Nat := rotr32 2 x ^^^ rotr32 13 x ^^^ rotr32 22 x

def bigSigma1 (x : Nat) : Nat := rotr32 6 x ^^^ rotr32 11 x ^^^ rotr32 25 x

def smallSigma0 (x : Nat) : Nat := rotr32 7 x ^^^ rotr32 18 x ^^^ (x >>> 3)

def smallSigma1 (x : Nat) : Nat := rotr32 17 x ^^^ rotr32 19 x ^^^ (x >>> 10)

def chFn (x y z : Nat) : Nat := (x &&& y) ^^^ ((4294967295 ^^^ x) &&& z)

def majFn (x y z : Nat) : Nat := (x &&& y) ^^^ (x &&& z) ^^^ (y &&& z)

/-- The 64 SHA-256 round constants. -/
def sha256K : List Nat :=
  [1116352408, 1899447441, 3049323471, 3921009573,
   961987163, 1508970993, 2453635748, 2870763221,
   3624381080, 310598401, 607225278, 1426881987,
   1925078388, 2162078206, 2614888103, 3248222580,
   3835390401, 4022224774, 264347078, 604807628,
   770255983, 1249150122, 1555081692, 1996064986,
   2554220882, 2821834349, 2952996808, 3210313671,
   3336571891, 3584528711, 113926993, 338241895,
   666307205, 773529912, 1294757372, 1396182291,
   1695183700, 1986661051, 2177026350, 2456956037,
   2730485921, 2820302411, 3259730800, 3345764771,
   3516065817, 3600352804, 4094571909, 275423344,
   430227734, 506948616, 659060556, 883997877,
   958139571, 1322822218, 1537002063, 1747873779,
   1955562222, 2024104815, 2227730452, 2361852424,
   2428436474, 2756734187, 3204031479, 3329325298]

/-- Intermediate hash state (eight 32-bit words). -/
structure HashSt where
  a : Nat
  b : Nat
  c : Nat
  d : Nat
  e : Nat
  f : Nat
  g : Nat
  h : Nat
deriving Repr

def sha256Init : HashSt :=
  ⟨1779033703, 3144134277, 1013904242, 2773480762,
   1359893119, 2600822924, 528734635, 1541459225⟩

/-- One compression round, fed a pair of schedule word and constant. -/
def compressStep (st : HashSt) (kw : Nat × Nat) : HashSt :=
  let t1 := w32 (st.h + bigSigma1 st.e + chFn st.e st.f st.g + kw.2 + kw.1)
  let t2 := w32 (bigSigma0 st.a + majFn st.a st.b st.c)
  ⟨w32 (t1 + t2), st.a, st.b, st.c, w32 (st.d + t1), st.e, st.f, st.g⟩

/-- Extend 16 message words to 64, accumulating in reverse. -/
def scheduleAux (n : Nat) (acc : List Nat) : List Nat :=
  match n with
  | 0 => acc
  | n + 1 =>
      let w := w32 (smallSigma1 (acc.getD 1 0) + acc.getD 6 0 +
        smallSigma0 (acc.getD 14 0) + acc.getD 15 0)
      scheduleAux n (w :: acc)

def schedule (ws : List Nat) : List Nat :=
  (scheduleAux 48 ws.reverse).reverse

/-- Big-endian grouping of bytes into 32-bit words. -/
def bytesToWords (bs : List Nat) : List Nat :=
  match bs with
  | b0 :: b1 :: b2 :: b3 :: rest =>
      (b0 * 16777216 + b1 * 65536 + b2 * 256 + b3) :: bytesToWords rest
  | _ => []

/-- Compress one 64-byte chunk into the running state. -/
def processChunk (st : HashSt) (chunk : List Nat) : HashSt :=
  let ws := schedule (bytesToWords chunk)
  let t := (ws.zip sha256K).foldl compressStep st
  ⟨w32 (st.a + t.a), w32 (st.b + t.b), w32 (st.c + t.c), w32 (st.d + t.d),
   w32 (st.e + t.e), w32 (st.f + t.f), w32 (st.g + t.g), w32 (st.h + t.h)⟩

/-- Big-endian byte rendering of `n` on `count` bytes. -/
def natToBytesBE (count n : Nat) : List Nat :=
  match count with
  | 0 => []
  | count + 1 => natToBytesBE count (n / 256) ++ [n % 256]

/-- SHA-256 padding: `0x80`, zeros to 56 mod 64, 8-byte bit length. -/
def sha256Pad (msg : List Nat) : List Nat :=
  let r := (msg.length + 1) % 64
  let k := (64 + 56 - r) % 64
  msg ++ [128] ++ List.replicate k 0 ++ natToBytesBE 8 (8 * msg.length)

def chunks64 (fuel : Nat) (bs : List Nat) : List (List Nat) :=
  match fuel, bs with
  | 0, _ => []
  | _, [] => []
  | fuel + 1, bs => bs.take 64 :: chunks64 fuel (bs.drop 64)

def wordBytes (w : Nat) : List Nat :=
  [w / 16777216 % 256, w / 65536 % 256, w / 256 % 256, w % 256]

/-- SHA-256 of a byte list. -/
def sha256Bytes (msg : List Nat) : List Nat :=
  let padded := sha256Pad msg
  let st := (chunks64 (padded.length + 1) padded).foldl processChunk sha256Init
  wordBytes st.a ++ wordBytes st.b ++ wordBytes st.c ++ wordBytes st.d ++
    wordBytes st.e ++ wordBytes st.f ++ wordBytes st.g ++ wordBytes st.h

def base64UrlAlphabet : List Char :=
  "ABCDEFGHIJKLMNOPQRSTUVWXYZabcdefghijklmnopqrstuvwxyz0123456789-_".data

def b64Char (n : Nat) : Char :=
  base64UrlAlphabet.getD n 'A'

/-- Unpadded base64url encoding (as produced by `digest("base64url")`). -/
def base64UrlEncode (bs : List Nat) : List Char :=
  match bs with
  | a :: b :: c :: rest =>
      b64Char (a / 4) :: b64Char ((a % 4) * 16 + b / 16) ::
        b64Char ((b % 16) * 4 + c / 64) :: b64Char (c % 64) ::
          base64UrlEncode rest
  | [a, b] =>
      [b64Char (a / 4), b64Char ((a % 4) * 16 + b / 16), b64Char ((b % 16) * 4)]
  | [a] => [b64Char (a / 4), b64Char ((a % 4) * 16)]
  | [] => []

def utf8Bytes (s : String) : List Nat :=
  s.toUTF8.toList.map (fun b => b.toNat)

/-- `crypto.createHash("sha256").update(s).digest("base64url")`. -/
def sha256Base64Url (s : String) : String :=
  String.mk (base64UrlEncode (sha256Bytes (utf8Bytes s)))

/-! ### Credential issuer (`getOrCreateApiKey`)

Instants are modelled as milliseconds-since-epoch naturals; the source
renders them with `toISOString()`, an injective, order-preserving
notation for the same instant.  The several clock reads inside one mint
happen at one instant in this model.  The `Math.random()` suffix and the
`crypto.randomUUID()` value enter as explicit parameters. -/

/-- The row inserted into the `apikey` table (nullable columns that the
insert sets to `NULL`, and zero-valued counters, are kept verbatim). -/
structure ApiKeyRow where
  id : String
  userId : String
  name : String
  prefixCol : String
  start : String
  key : String
  enabled : Bool
  metadata : Option JVal
  requestCount : Nat
  rateLimitEnabled : Bool
  expiresAt : Nat
  createdAt : Nat
  updatedAt : Nat
deriving Repr

/-- `getOrCreateApiKey`: mint a fresh assistant key; returns the
plaintext handed to the loop together with the persisted row.  (Despite
its name the source always creates a new key.) -/
def getOrCreateApiKey (userId : String) (nowMs : Nat) (rand uuid : String) :
    String × ApiKeyRow :=
  let plaintextKey := "assistant_" ++ userId ++ "_" ++ toString nowMs ++ "_" ++ rand
  let hashedKey := sha256Base64Url plaintextKey
  (plaintextKey,
    { id := uuid
      userId := userId
      name := "Assistant Key"
      prefixCol := jsSlice plaintextKey 4
      start := jsSlice plaintextKey 8
      key := hashedKey
      enabled := true
      metadata := none
      requestCount := 0
      rateLimitEnabled := false
      expiresAt := nowMs + 24 * 60 * 60 * 1000
      createdAt := nowMs
      updatedAt := nowMs })

/-! ### Tool calls, model responses and the MCP result payload -/

/-- A model-issued tool call (`call.id`, `call.function.name`,
`call.function.arguments`); `none` models an absent arguments field. -/
structure ToolCall where
  id : String
  name : String
  arguments : Option String
deriving Repr

/-- The chosen message of one model API response: `content` is any JSON
value (`null` models an absent field) and `tool_calls` is either absent
or an array of calls. -/
structure ModelResponse where
  content : JVal
  tool_calls : Option (List ToolCall)
deriving Repr

/-- The loop guard `resp.tool_calls && Array.isArray(...) && length > 0`
yields this list of calls (empty when the guard fails). -/
def toolCallsOf (r : ModelResponse) : List ToolCall :=
  match r.tool_calls with
  | some calls => calls
  | none => []

/-- The result of `callMcpTool`: a record whose `content` is an optional
array of content blocks (arbitrary values, as the worker sends them). -/
structure McpToolResult where
  content : Option (List JVal)
deriving Repr

/-- `extractToolPayload`: find the first text-typed content block, throw
unless it carries a string `text`; empty or whitespace-only text becomes
the empty object; otherwise parse as JSON, falling back to the raw
string. -/
def isTextTyped (item : JVal) : Bool :=
  match jvGet item "type" with
  | some (.str s) => s = "text"
  | _ => false

def extractToolPayload (result : McpToolResult) : Except String JVal :=
  match (result.content.getD []).find? isTextTyped with
  | none => .error "Tool returned no readable text content"
  | some textItem =>
      if !isTextTyped textItem then
        .error "Tool returned no readable text content"
      else
        match jvGet textItem "text" with
        | some (.str t) =>
            let raw := jsTrim t
            if raw = "" then .ok (.obj [])
            else
              match jsonParse raw with
              | some parsed => .ok parsed
              | none => .ok (.str raw)
        | _ => .error "Tool returned no readable text content"

/-- `payload ?? {}`: nullish coalescing applied before serializing the
tool message content. -/
def nullishToObj (v : JVal) : JVal :=
  match v with
  | .null => .obj []
  | x => x

/-! ### Per-call argument resolution and credential injection -/

/-- Resolution of `call.function.arguments` (lines 322–327): a falsy or
unparsable arguments string yields the empty object. -/
def resolveCallArgs (raw : Option String) : JVal :=
  match raw with
  | none => .obj []
  | some s => if s = "" then .obj [] else (jsonParse s).getD (.obj [])

/-- Credential injection (lines 329–332): `if (!args.apiKey) args.apiKey
= userApiKey`.  Reading `.apiKey` off `null` throws, and assigning onto
any other primitive throws in strict mode; an array accepts the expando
property, which its JSON serialization then ignores. -/
def injectApiKey (userApiKey : String) (args : JVal) : Except String JVal :=
  match args with
  | .obj fields =>
      if truthyOpt (objLookup fields "apiKey") then .ok (.obj fields)
      else .ok (.obj (objSet fields "apiKey" (.str userApiKey)))
  | .arr xs => .ok (.arr xs)
  | .null => .error "Cannot read properties of null"
  | _ => .error "Cannot create property on a primitive value"

/-! ### The conversation loop (lines 301–366) -/

/-- The external behaviour of `callMcpTool`: given a tool name and the
dispatched arguments it either returns a worker result or throws with a
message. -/
def ToolExec : Type := String → JVal → Except String McpToolResult

/-- One record of an actual `callMcpTool` dispatch (instrumentation of
the embedding: which calls reached the transport, with which args). -/
structure DispatchRecord where
  name : String
  args : JVal
deriving Repr

/-- One entry pushed onto `turnToolResults` (a `role:"tool"` message). -/
structure ToolMsgRec where
  tool_call_id : String
  content : String
  name : String
deriving Repr

/-- One entry pushed onto `collectedToolPayloads`. -/
structure CollectedEntry where
  name : String
  payload : JVal
deriving Repr

/-- The messages accumulated in `chatMessages`. -/
inductive ChatMsg where
  | plain (role : String) (content : String)
  | assistantCalls (resp : ModelResponse)
  | tool (tool_call_id : String) (content : String) (name : String)
deriving Repr

def ToolMsgRec.toChatMsg (m : ToolMsgRec) : ChatMsg :=
  .tool m.tool_call_id m.content m.name

/-- Processing of one tool call in the `for` loop (lines 320–354).  An
`Except.error` is a throw outside the per-call `try` (the strict-mode
`TypeError` of the injection step) and aborts the request; transport and
payload-extraction errors are absorbed into an error tool message and an
error collected entry. -/
def processCall (exec : ToolExec) (userApiKey : String) (call : ToolCall) :
    Except String (DispatchRecord × ToolMsgRec × CollectedEntry) :=
  match injectApiKey userApiKey (resolveCallArgs call.arguments) with
  | .error e => .error e
  | .ok args =>
      match (exec call.name args).bind extractToolPayload with
      | .ok payload =>
          .ok (⟨call.name, args⟩,
            ⟨call.id, jsonStringify (nullishToObj payload), call.name⟩,
            ⟨call.name, payload⟩)
      | .error errorMessage =>
          .ok (⟨call.name, args⟩,
            ⟨call.id, jsonStringify (.obj [("error", .str errorMessage)]),
              call.name⟩,
            ⟨call.name, .obj [("error", .str errorMessage)]⟩)

/-- Mutable state of one request's conversation: the message history,
the collected tool payloads, plus instrumentation counters (dispatches
made, model calls made, tool-executing turns entered). -/
structure RunState where
  history : List ChatMsg
  collected : List CollectedEntry
  dispatches : List DispatchRecord
  modelCalls : Nat
  toolTurns : Nat
deriving Repr

def RunState.empty : RunState := ⟨[], [], [], 0, 0⟩

/-- The `for (const call of toolCalls)` loop over one turn's calls.  On
a throw the messages of `turnToolResults` are lost (they were never
appended to the history), while `collectedToolPayloads` keeps the
entries of the calls already processed. -/
def runTurnCalls (exec : ToolExec) (userApiKey : String)
    (calls : List ToolCall) (st : RunState) :
    Except (String × RunState) (List ToolMsgRec × RunState) :=
  match calls with
  | [] => .ok ([], st)
  | call :: rest =>
      match processCall exec userApiKey call with
      | .error e => .error (e, st)
      | .ok (d, m, entry) =>
          let st' := { st with
            collected := st.collected ++ [entry]
            dispatches := st.dispatches ++ [d] }
          match runTurnCalls exec userApiKey rest st' with
          | .error (e, st'') => .error (e, st'')
          | .ok (msgs, st'') => .ok (m :: msgs, st'')

/-- The external behaviour of `callAIChatWithTools`, indexed by how many
model calls have been made so far in this request; an `Except.error` is
a thrown model-API failure. -/
def ModelOracle : Type := Nat → Except String ModelResponse

def MAX_TURNS : Nat := 5

/-- Outcome of the `while` loop: the final model response (or the thrown
error) plus the state. -/
structure LoopOut where
  final : Except String ModelResponse
  st : RunState
deriving Repr

/-- The `while` loop (lines 306–366).  `fuel = MAX_TURNS - turns`
realizes the guard `turns < MAX_TURNS`; the loop also exits when the
current response carries no tool calls. -/
def chatLoop (oracle : ModelOracle) (exec : ToolExec) (userApiKey : String) :
    Nat → ModelResponse → RunState → LoopOut
  | 0, resp, st => ⟨.ok resp, st⟩
  | fuel + 1, resp, st =>
      match toolCallsOf resp with
      | [] => ⟨.ok resp, st⟩
      | call :: calls =>
          let st1 := { st with
            toolTurns := st.toolTurns + 1
            history := st.history ++ [.assistantCalls resp] }
          match runTurnCalls exec userApiKey (call :: calls) st1 with
          | .error (e, st') => ⟨.error e, st'⟩
          | .ok (msgs, st2) =>
              let st3 := { st2 with
                history := st2.history ++ msgs.map ToolMsgRec.toChatMsg }
              match oracle st3.modelCalls with
              | .error e =>
                  ⟨.error e, { st3 with modelCalls := st3.modelCalls + 1 }⟩
              | .ok resp' =>
                  chatLoop oracle exec userApiKey fuel resp'
                    { st3 with modelCalls := st3.modelCalls + 1 }

/-! ### The `/chat` request handler (lines 224–394) -/

/-- The success body `{reply, toolResults}`. -/
structure AssistantBody where
  reply : String
  toolResults : List CollectedEntry
deriving Repr

/-- The value sent back to the HTTP layer: either the success envelope
or `{success:false, error, message}` with a status code.  The failure
constructor carries no tool results. -/
inductive HttpResponse where
  | ok (body : AssistantBody)
  | err (status : Nat) (error : String) (message : String)
deriving Repr

/-- The inputs of one `/chat` request: configuration, authenticated
user, and raw body. -/
structure ChatRequest where
  aiApiKey : Option String
  user : Option String
  messages : Option (List RawMsg)
deriving Repr

/-- Instrumented trace of one request: the HTTP response, whether the
credential mint was reached, the final loop state, and the model
response the reply was read from (when the loop finished). -/
structure ChatTrace where
  response : HttpResponse
  mintAttempted : Bool
  st : RunState
  finalResp : Option ModelResponse
deriving Repr

/-- The exit of the loop (lines 368–383): read `content` off the last
model response, trim it, fail with the no-content error when it is
empty, otherwise answer with the reply and the collected tool
payloads. -/
def chatFinish (lo : LoopOut) : ChatTrace :=
  match lo.final with
  | .error e => ⟨.err 502 "Assistant error" e, true, lo.st, none⟩
  | .ok last =>
      let replyText := ensureString last.content
      if replyText = "" then
        ⟨.err 502 "Assistant error" "LLM returned no content in response",
          true, lo.st, some last⟩
      else
        ⟨.ok ⟨replyText, lo.st.collected⟩, true, lo.st, some last⟩

/-- The whole `/chat` handler.  `mint` abstracts `getOrCreateApiKey`'s
effect (the plaintext key, or a storage failure); `listToolsRes`
abstracts `listMcpTools` (only its success or thrown error matters to
the control flow); `oracle` and `exec` abstract the model API and the
MCP transport. -/
def chatHandler (req : ChatRequest) (mint : Except String String)
    (listToolsRes : Except String Unit) (oracle : ModelOracle)
    (exec : ToolExec) : ChatTrace :=
  if req.aiApiKey.getD "" = "" then
    ⟨.err 503 "AI not configured"
      "Set AI_API_KEY in the backend environment to enable the assistant.",
      false, .empty, none⟩
  else
    match req.user with
    | none => ⟨.err 401 "Unauthorized" "User authentication required",
        false, .empty, none⟩
    | some _ =>
        match req.messages with
        | none => ⟨.err 400 "Invalid payload"
            "messages must be a non-empty array", false, .empty, none⟩
        | some [] => ⟨.err 400 "Invalid payload"
            "messages must be a non-empty array", false, .empty, none⟩
        | some messages =>
            if messages.any invalidChatMessage then
              ⟨.err 400 "Invalid payload"
                "Each message must include a role and non-empty content.",
                false, .empty, none⟩
            else
              match mint with
              | .error _ =>
                  ⟨.err 500 "Internal Server Error"
                    "Unable to provision API access for assistant actions",
                    true, .empty, none⟩
              | .ok userApiKey =>
                  let sanitized := sanitizeMessages messages
                  let history0 := ChatMsg.plain "system" buildSystemPrompt ::
                    sanitized.map (fun m => ChatMsg.plain m.role m.content)
                  match listToolsRes with
                  | .error e =>
                      ⟨.err 502 "Assistant error" e, true,
                        { RunState.empty with history := history0 }, none⟩
                  | .ok _ =>
                      match oracle 0 with
                      | .error e =>
                          ⟨.err 502 "Assistant error" e, true,
                            { RunState.empty with
                              history := history0, modelCalls := 1 }, none⟩
                      | .ok firstResponse =>
                          let st0 : RunState :=
                            { RunState.empty with
                              history := history0, modelCalls := 1 }
                          chatFinish (chatLoop oracle exec userApiKey
                            MAX_TURNS firstResponse st0)

/-! ### Structural lemmas about the loop -/

@[simp] theorem chatFinish_st (lo : LoopOut) : (chatFinish lo).st = lo.st := by
  unfold chatFinish
  cases lo.final with
  | error e => rfl
  | ok last => dsimp only; split <;> rfl

theorem runTurnCalls_ok_counters (exec : ToolExec) (k : String) :
    ∀ (calls : List ToolCall) (st : RunState) (msgs : List ToolMsgRec)
      (st' : RunState), runTurnCalls exec k calls st = .ok (msgs, st') →
      st'.modelCalls = st.modelCalls ∧ st'.toolTurns = st.toolTurns := by
  intro calls
  induction calls with
  | nil => intro st msgs st' h; simp [runTurnCalls] at h; simp [h.2]
  | cons call rest ih =>
      intro st msgs st' h
      simp only [runTurnCalls] at h
      cases hpc : processCall exec k call with
      | error e => rw [hpc] at h; simp at h
      | ok out =>
          rw [hpc] at h
          obtain ⟨d, m, entry⟩ := out
          simp only at h
          cases hrec : runTurnCalls exec k rest
              { st with
                collected := st.collected ++ [entry]
                dispatches := st.dispatches ++ [d] } with
          | error p => rw [hrec] at h; simp at h
          | ok p =>
              rw [hrec] at h
              obtain ⟨msgs2, st2⟩ := p
              simp only [Except.ok.injEq, Prod.mk.injEq] at h
              have := ih _ _ _ hrec
              simp only [← h.2]
              exact this

theorem runTurnCalls_err_counters (exec : ToolExec) (k : String) :
    ∀ (calls : List ToolCall) (st : RunState) (e : String)
      (st' : RunState), runTurnCalls exec k calls st = .error (e, st') →
      st'.modelCalls = st.modelCalls ∧ st'.toolTurns = st.toolTurns := by
  intro calls
  induction calls with
  | nil => intro st e st' h; simp [runTurnCalls] at h
  | cons call rest ih =>
      intro st e st' h
      simp only [runTurnCalls] at h
      cases hpc : processCall exec k call with
      | error e' =>
          rw [hpc] at h
          simp only [Except.error.injEq, Prod.mk.injEq] at h
          simp [← h.2]
      | ok out =>
          rw [hpc] at h
          obtain ⟨d, m, entry⟩ := out
          simp only at h
          cases hrec : runTurnCalls exec k rest
              { st with
                collected := st.collected ++ [entry]
                dispatches := st.dispatches ++ [d] } with
          | error p =>
              rw [hrec] at h
              obtain ⟨e2, st2⟩ := p
              simp only [Except.error.injEq, Prod.mk.injEq] at h
              have := ih _ _ _ hrec
              simp only [← h.2]
              exact this
          | ok p => rw [hrec] at h; simp at h

theorem chatLoop_toolTurns_le (oracle : ModelOracle) (exec : ToolExec)
    (k : String) : ∀ (fuel : Nat) (resp : ModelResponse) (st : RunState),
    (chatLoop oracle exec k fuel resp st).st.toolTurns ≤ st.toolTurns + fuel := by
  intro fuel
  induction fuel with
  | zero => intro resp st; simp [chatLoop]
  | succ n ih =>
      intro resp st
      simp only [chatLoop]
      cases htc : toolCallsOf resp with
      | nil => dsimp only; omega
      | cons call calls =>
          dsimp only
          cases hrun : runTurnCalls exec k (call :: calls)
              { st with
                toolTurns := st.toolTurns + 1
                history := st.history ++ [.assistantCalls resp] } with
          | error p =>
              obtain ⟨e, st'⟩ := p
              have hc := runTurnCalls_err_counters exec k _ _ _ _ hrun
              have hcp := hc.2
              dsimp only at hcp
              dsimp only
              omega
          | ok p =>
              obtain ⟨msgs, st2⟩ := p
              have hc := runTurnCalls_ok_counters exec k _ _ _ _ hrun
              have hcp := hc.2
              dsimp only at hcp
              dsimp only
              cases oracle st2.modelCalls with
              | error e =>
                  dsimp only
                  omega
              | ok resp' =>
                  dsimp only
                  have hih := ih resp'
                    { st2 with
                      history := st2.history ++ msgs.map ToolMsgRec.toChatMsg
                      modelCalls := st2.modelCalls + 1 }
                  dsimp only at hih
                  omega

theorem chatLoop_modelCalls_le (oracle : ModelOracle) (exec : ToolExec)
    (k : String) : ∀ (fuel : Nat) (resp : ModelResponse) (st : RunState),
    (chatLoop oracle exec k fuel resp st).st.modelCalls ≤ st.modelCalls + fuel := by
  intro fuel
  induction fuel with
  | zero => intro resp st; simp [chatLoop]
  | succ n ih =>
      intro resp st
      simp only [chatLoop]
      cases htc : toolCallsOf resp with
      | nil => dsimp only; omega
      | cons call calls =>
          dsimp only
          cases hrun : runTurnCalls exec k (call :: calls)
              { st with
                toolTurns := st.toolTurns + 1
                history := st.history ++ [.assistantCalls resp] } with
          | error p =>
              obtain ⟨e, st'⟩ := p
              have hc := runTurnCalls_err_counters exec k _ _ _ _ hrun
              have hcp := hc.1
              dsimp only at hcp
              dsimp only
              omega
          | ok p =>
              obtain ⟨msgs, st2⟩ := p
              have hc := runTurnCalls_ok_counters exec k _ _ _ _ hrun
              have hcp := hc.1
              dsimp only at hcp
              dsimp only
              cases oracle st2.modelCalls with
              | error e =>
                  dsimp only
                  omega
              | ok resp' =>
                  dsimp only
                  have hih := ih resp'
                    { st2 with
                      history := st2.history ++ msgs.map ToolMsgRec.toChatMsg
                      modelCalls := st2.modelCalls + 1 }
                  dsimp only at hih
                  omega

theorem chatLoop_modelCalls_ge (oracle : ModelOracle) (exec : ToolExec)
    (k : String) : ∀ (fuel : Nat) (resp : ModelResponse) (st : RunState),
    st.modelCalls ≤ (chatLoop oracle exec k fuel resp st).st.modelCalls := by
  intro fuel
  induction fuel with
  | zero => intro resp st; simp [chatLoop]
  | succ n ih =>
      intro resp st
      simp only [chatLoop]
      cases htc : toolCallsOf resp with
      | nil => dsimp only; omega
      | cons call calls =>
          dsimp only
          cases hrun : runTurnCalls exec k (call :: calls)
              { st with
                toolTurns := st.toolTurns + 1
                history := st.history ++ [.assistantCalls resp] } with
          | error p =>
              obtain ⟨e, st'⟩ := p
              have hc := runTurnCalls_err_counters exec k _ _ _ _ hrun
              have hcp := hc.1
              dsimp only at hcp
              dsimp only
              omega
          | ok p =>
              obtain ⟨msgs, st2⟩ := p
              have hc := runTurnCalls_ok_counters exec k _ _ _ _ hrun
              have hcp := hc.1
              dsimp only at hcp
              dsimp only
              cases oracle st2.modelCalls with
              | error e =>
                  dsimp only
                  omega
              | ok resp' =>
                  dsimp only
                  have hih := ih resp'
                    { st2 with
                      history := st2.history ++ msgs.map ToolMsgRec.toChatMsg
                      modelCalls := st2.modelCalls + 1 }
                  dsimp only at hih
                  omega

/-! ### Claim C2 -/

/-- C2: for every input — any request, mint outcome, tool list outcome,
model behaviour and tool behaviour — the conversation loop performs at
most `MAX_TURNS = 5` tool-executing turns and the model is called at
most `MAX_TURNS + 1 = 6` times; a 6th round of tool dispatch is never
issued. -/
theorem chat_turn_bound (req : ChatRequest) (mint : Except String String)
    (listToolsRes : Except String Unit) (oracle : ModelOracle)
    (exec : ToolExec) :
    (chatHandler req mint listToolsRes oracle exec).st.toolTurns ≤ MAX_TURNS ∧
      (chatHandler req mint listToolsRes oracle exec).st.modelCalls ≤
        MAX_TURNS + 1 := by
  have hT := chatLoop_toolTurns_le oracle exec
  have hM := chatLoop_modelCalls_le oracle exec
  refine ⟨?_, ?_⟩ <;>
    · unfold chatHandler
      dsimp only
      repeat' split
      all_goals
        first
        | (simp [RunState.empty, MAX_TURNS] <;> omega)
        | (rw [chatFinish_st]; exact le_trans (hT _ _ _ _)
            (by simp [RunState.empty, MAX_TURNS] <;> omega))
        | (rw [chatFinish_st]; exact le_trans (hM _ _ _ _)
            (by simp [RunState.empty, MAX_TURNS] <;> omega))

theorem jsSlice_length (s : String) (n : Nat) :
    (jsSlice s n).length = min n s.length := by
  show (s.data.take n).length = min n s.data.length
  exact List.length_take n s.data

/-! ### Claim C6 -/

/-- C6: for any caller-supplied message list, the sanitized history is at
most the trailing 12 messages; each sanitized message's content is at
most 4000 characters and, for string content, is the 4000-character
truncation (hence a prefix) of the original; every role other than
`"assistant"` is coerced to `"user"`. -/
theorem sanitize_messages_spec (ms : List RawMsg) :
    (sanitizeMessages ms).length ≤ 12 ∧
    ∀ (i : Nat) (m' : ChatMessagePayload),
      (sanitizeMessages ms)[i]? = some m' →
      ∃ m : RawMsg, (ms.drop (ms.length - 12))[i]? = some m ∧
        m'.role = (if m.role = "assistant" then "assistant" else "user") ∧
        m'.content.length ≤ 4000 ∧
        (∀ s : String, m.content = .str s →
          m'.content.data = s.data.take 4000) := by
  constructor
  · simp only [sanitizeMessages, List.length_map, List.length_drop]
    omega
  · intro i m' h
    simp only [sanitizeMessages, List.getElem?_map] at h
    cases hm : (ms.drop (ms.length - 12))[i]? with
    | none => rw [hm] at h; simp at h
    | some m =>
        rw [hm] at h
        simp only [Option.map_some', Option.some.injEq] at h
        refine ⟨m, rfl, ?_, ?_, ?_⟩
        · rw [← h]
        · rw [← h]
          cases m.content
          case str s =>
            dsimp only
            rw [jsSlice_length]
            omega
          all_goals (dsimp only; decide)
        · intro s hs
          rw [← h, hs]
          rfl

/-- C6 witness: the theorem applied to a concrete one-message history. -/
theorem sanitize_messages_spec_witness :
    ∃ m : RawMsg,
      ([(⟨"system", .str "hello"⟩ : RawMsg)].drop
        ([(⟨"system", .str "hello"⟩ : RawMsg)].length - 12))[0]? = some m ∧
      ("user" : String) = (if m.role = "assistant" then "assistant" else "user") ∧
      ("hello" : String).length ≤ 4000 ∧
      (∀ s : String, m.content = .str s →
        ("hello" : String).data = s.data.take 4000) :=
  (sanitize_messages_spec [⟨"system", .str "hello"⟩]).2 0 ⟨"user", "hello"⟩ rfl

/-! ### Claim C7 -/

/-- C7: every credential mint persists a SHA-256 digest of the plaintext
(never the plaintext: the only truncations stored are 4 and 8 characters
long, strictly shorter than any plaintext) together with the owning
user, the short display prefix, the enabled flag and the creation time;
`expiresAt = createdAt + 24` hours; and the plaintext is built from the
user id, the current time in milliseconds and the random suffix. -/
theorem apikey_mint_spec (userId : String) (nowMs : Nat) (rand uuid : String) :
    (getOrCreateApiKey userId nowMs rand uuid).1 =
        "assistant_" ++ userId ++ "_" ++ toString nowMs ++ "_" ++ rand ∧
    (getOrCreateApiKey userId nowMs rand uuid).2.key =
        sha256Base64Url (getOrCreateApiKey userId nowMs rand uuid).1 ∧
    (getOrCreateApiKey userId nowMs rand uuid).2.userId = userId ∧
    (getOrCreateApiKey userId nowMs rand uuid).2.name = "Assistant Key" ∧
    (getOrCreateApiKey userId nowMs rand uuid).2.prefixCol =
        jsSlice (getOrCreateApiKey userId nowMs rand uuid).1 4 ∧
    (getOrCreateApiKey userId nowMs rand uuid).2.start =
        jsSlice (getOrCreateApiKey userId nowMs rand uuid).1 8 ∧
    (getOrCreateApiKey userId nowMs rand uuid).2.enabled = true ∧
    (getOrCreateApiKey userId nowMs rand uuid).2.createdAt = nowMs ∧
    (getOrCreateApiKey userId nowMs rand uuid).2.expiresAt =
        (getOrCreateApiKey userId nowMs rand uuid).2.createdAt +
          24 * 60 * 60 * 1000 ∧
    (getOrCreateApiKey userId nowMs rand uuid).2.prefixCol ≠
        (getOrCreateApiKey userId nowMs rand uuid).1 ∧
    (getOrCreateApiKey userId nowMs rand uuid).2.start ≠
        (getOrCreateApiKey userId nowMs rand uuid).1 := by
  have hlen : 10 ≤ (getOrCreateApiKey userId nowMs rand uuid).1.length := by
    have h10 : ("assistant_" : String).length = 10 := rfl
    simp only [getOrCreateApiKey, String.length_append, h10]
    omega
  refine ⟨rfl, rfl, rfl, rfl, rfl, rfl, rfl, rfl, rfl, ?_, ?_⟩
  · intro heq
    have hpre : (getOrCreateApiKey userId nowMs rand uuid).2.prefixCol =
        jsSlice (getOrCreateApiKey userId nowMs rand uuid).1 4 := rfl
    rw [hpre] at heq
    have hl := congrArg String.length heq
    rw [jsSlice_length] at hl
    omega
  · intro heq
    have hst : (getOrCreateApiKey userId nowMs rand uuid).2.start =
        jsSlice (getOrCreateApiKey userId nowMs rand uuid).1 8 := rfl
    rw [hst] at heq
    have hl := congrArg String.length heq
    rw [jsSlice_length] at hl
    omega

/-! ### Claim C1 -/

theorem processCall_dispatch (exec : ToolExec) (k : String) (call : ToolCall)
    (args : JVal)
    (hinj : injectApiKey k (resolveCallArgs call.arguments) = .ok args) :
    ∃ out, processCall exec k call = .ok out ∧ out.1 = ⟨call.name, args⟩ := by
  unfold processCall
  rw [hinj]
  dsimp only
  cases hx : (exec call.name args).bind extractToolPayload with
  | ok p => exact ⟨_, rfl, rfl⟩
  | error m => exact ⟨_, rfl, rfl⟩

/-- C1 counterexample: the model supplies `apiKey` with the value `""`;
the claim says the arguments are then dispatched unchanged, but the
truthiness test overwrites the falsy value with the minted credential. -/
theorem credential_injection_cx :
    resolveCallArgs (some "\x7b\"apiKey\":\"\"\x7d") =
      .obj [("apiKey", .str "")] ∧
    injectApiKey "K" (.obj [("apiKey", .str "")]) ≠
      .ok (.obj [("apiKey", .str "")]) := by
  constructor
  · rfl
  · intro h
    simp [injectApiKey, truthyOpt, objLookup, truthy, objSet] at h

/-- C1 (amended): a tool call whose parsed arguments omit `apiKey` — or
supply it with a falsy value — is dispatched with the minted credential
written under `apiKey`; only a truthy supplied `apiKey` value is
dispatched unchanged.  The arguments handed to `Transport.callTool` are
exactly the result of this injection. -/
theorem credential_injection_amended (userApiKey : String)
    (fields : List (String × JVal)) :
    (objLookup fields "apiKey" = none →
      injectApiKey userApiKey (.obj fields) =
        .ok (.obj (objSet fields "apiKey" (.str userApiKey)))) ∧
    (∀ v, objLookup fields "apiKey" = some v → truthy v = true →
      injectApiKey userApiKey (.obj fields) = .ok (.obj fields)) ∧
    (∀ v, objLookup fields "apiKey" = some v → truthy v = false →
      injectApiKey userApiKey (.obj fields) =
        .ok (.obj (objSet fields "apiKey" (.str userApiKey)))) ∧
    (∀ (exec : ToolExec) (call : ToolCall)
      (out : DispatchRecord × ToolMsgRec × CollectedEntry),
      processCall exec userApiKey call = .ok out →
      injectApiKey userApiKey (resolveCallArgs call.arguments) =
        .ok out.1.args) := by
  refine ⟨?_, ?_, ?_, ?_⟩
  · intro h; simp [injectApiKey, truthyOpt, h]
  · intro v h ht; simp [injectApiKey, truthyOpt, h, ht]
  · intro v h ht; simp [injectApiKey, truthyOpt, h, ht]
  · intro exec call out h
    unfold processCall at h
    cases hinj : injectApiKey userApiKey (resolveCallArgs call.arguments) with
    | error e => rw [hinj] at h; exact absurd h (by simp)
    | ok args =>
        rw [hinj] at h
        dsimp only at h
        cases hx : (exec call.name args).bind extractToolPayload with
        | ok p =>
            rw [hx] at h
            simp only [Except.ok.injEq] at h
            rw [← h]
        | error msg =>
            rw [hx] at h
            simp only [Except.ok.injEq] at h
            rw [← h]

/-- C1 witness: the omitted-`apiKey` branch at a concrete input. -/
theorem credential_injection_amended_witness :
    injectApiKey "K" (.obj []) =
      .ok (.obj (objSet [] "apiKey" (.str "K"))) :=
  (credential_injection_amended "K" []).1 rfl

/-! ### Claim C8 -/

/-- C8: a tool call whose arguments string is absent or fails to parse
as JSON is still dispatched rather than rejected: the dispatched
arguments are the empty object plus the injected credential. -/
theorem unparsable_args_dispatched (exec : ToolExec) (key id nm : String)
    (raw : Option String)
    (h : raw = none ∨ raw = some "" ∨
      ∃ s, raw = some s ∧ jsonParse s = none) :
    resolveCallArgs raw = .obj [] ∧
    ∃ out, processCall exec key ⟨id, nm, raw⟩ = .ok out ∧
      out.1 = ⟨nm, .obj [("apiKey", .str key)]⟩ := by
  have hres : resolveCallArgs raw = .obj [] := by
    rcases h with h | h | ⟨s, hs, hp⟩
    · rw [h]; rfl
    · rw [h]; rfl
    · rw [hs]
      show (if s = "" then JVal.obj [] else (jsonParse s).getD (.obj [])) =
        .obj []
      rw [hp]
      split <;> rfl
  have hinj : injectApiKey key
      (resolveCallArgs (⟨id, nm, raw⟩ : ToolCall).arguments) =
      .ok (.obj [("apiKey", .str key)]) := by
    show injectApiKey key (resolveCallArgs raw) = _
    rw [hres]
    rfl
  obtain ⟨out, h1, h2⟩ := processCall_dispatch exec key _ _ hinj
  exact ⟨hres, out, h1, h2⟩

/-- C8 witness: an unparsable arguments string at a concrete input. -/
theorem unparsable_args_dispatched_witness :
    resolveCallArgs (some "not json") = .obj [] ∧
    ∃ out, processCall (fun _ _ => .error "down") "K"
        ⟨"id1", "tool1", some "not json"⟩ = .ok out ∧
      out.1 = ⟨"tool1", .obj [("apiKey", .str "K")]⟩ :=
  unparsable_args_dispatched (fun _ _ => .error "down") "K" "id1" "tool1"
    (some "not json") (Or.inr (Or.inr ⟨"not json", rfl, rfl⟩))

/-! ### Claim C4 -/

/-- Control-flow shape of the handler: either the run reached the loop
exit (the trace is `chatFinish` of some loop outcome) or it stopped at a
pre-loop failure, whose response is an error envelope and whose
`finalResp` is empty. -/
theorem chatHandler_shape (req : ChatRequest) (mint : Except String String)
    (listToolsRes : Except String Unit) (oracle : ModelOracle)
    (exec : ToolExec) :
    (∃ lo : LoopOut,
      chatHandler req mint listToolsRes oracle exec = chatFinish lo) ∨
    ((∃ s e m, (chatHandler req mint listToolsRes oracle exec).response =
        .err s e m) ∧
      (chatHandler req mint listToolsRes oracle exec).finalResp = none) := by
  unfold chatHandler
  dsimp only
  repeat' split
  all_goals
    first
    | (left; exact ⟨_, rfl⟩)
    | (right; exact ⟨⟨_, _, _, rfl⟩, rfl⟩)

/-- Concrete request used by counterexample runs. -/
def reqOneUserMsg : ChatRequest :=
  ⟨some "sk", some "u1", some [⟨"user", .str "hi"⟩]⟩

/-- A model that always answers with whitespace-only content. -/
def oracleWhitespace : ModelOracle := fun _ => .ok ⟨.str " ", none⟩

/-- A transport whose behaviour is irrelevant to the runs using it. -/
def execUnused : ToolExec := fun _ _ => .error "unreachable"

/-- C4 counterexample: the final model content is the non-empty string
`" "`, yet the request fails with the no-content error (the code trims
before testing, the claim tests the untrimmed string). -/
theorem exit_content_cx :
    (chatHandler reqOneUserMsg (.ok "KEY") (.ok ())
      oracleWhitespace execUnused).response =
      .err 502 "Assistant error" "LLM returned no content in response" ∧
    (chatHandler reqOneUserMsg (.ok "KEY") (.ok ())
      oracleWhitespace execUnused).finalResp =
      some ⟨.str " ", none⟩ ∧
    (" " : String) ≠ "" := by
  refine ⟨rfl, rfl, by decide⟩

/-- C4 (amended): the controller reads `content` off the last model
response and trims it; the request succeeds with the trimmed content as
reply exactly when the trimmed content is non-empty, and otherwise fails
with the "model returned no content" error. -/
theorem exit_content_amended (req : ChatRequest) (mint : Except String String)
    (listToolsRes : Except String Unit) (oracle : ModelOracle)
    (exec : ToolExec) (last : ModelResponse)
    (hfin : (chatHandler req mint listToolsRes oracle exec).finalResp =
      some last) :
    (ensureString last.content = "" →
      (chatHandler req mint listToolsRes oracle exec).response =
        .err 502 "Assistant error" "LLM returned no content in response") ∧
    (ensureString last.content ≠ "" →
      (chatHandler req mint listToolsRes oracle exec).response =
        .ok ⟨ensureString last.content,
          (chatHandler req mint listToolsRes oracle exec).st.collected⟩) := by
  rcases chatHandler_shape req mint listToolsRes oracle exec with
    ⟨lo, heq⟩ | ⟨_, hnone⟩
  · rw [heq] at hfin ⊢
    rw [chatFinish_st]
    unfold chatFinish at hfin ⊢
    cases hlo : lo.final with
    | error e =>
        rw [hlo] at hfin
        dsimp only at hfin
        exact absurd hfin (by simp)
    | ok last' =>
        rw [hlo] at hfin
        dsimp only at hfin ⊢
        by_cases hrt : ensureString last'.content = ""
        · rw [if_pos hrt] at hfin ⊢
          dsimp only at hfin
          simp only [Option.some.injEq] at hfin
          subst hfin
          exact ⟨fun _ => rfl, fun hne => absurd hrt hne⟩
        · rw [if_neg hrt] at hfin ⊢
          dsimp only at hfin
          simp only [Option.some.injEq] at hfin
          subst hfin
          exact ⟨fun he => absurd he hrt, fun _ => rfl⟩
  · rw [hnone] at hfin
    exact absurd hfin (by simp)

/-- C4 witness for the amended theorem: a run whose last response has
content "hi" succeeds with that reply. -/
theorem exit_content_amended_witness :
    (ensureString (JVal.str "hi") = "" →
      (chatHandler reqOneUserMsg (.ok "KEY") (.ok ())
        (fun _ => .ok ⟨.str "hi", none⟩) execUnused).response =
        .err 502 "Assistant error" "LLM returned no content in response") ∧
    (ensureString (JVal.str "hi") ≠ "" →
      (chatHandler reqOneUserMsg (.ok "KEY") (.ok ())
        (fun _ => .ok ⟨.str "hi", none⟩) execUnused).response =
        .ok ⟨ensureString (JVal.str "hi"),
          (chatHandler reqOneUserMsg (.ok "KEY") (.ok ())
            (fun _ => .ok ⟨.str "hi", none⟩) execUnused).st.collected⟩) :=
  exit_content_amended reqOneUserMsg (.ok "KEY") (.ok ())
    (fun _ => .ok ⟨.str "hi", none⟩) execUnused ⟨.str "hi", none⟩ rfl

/-! ### Claim C5 -/

/-- A model that calls a tool on the first turn and then answers with
empty content and no tool calls. -/
def oracleForcedStop : ModelOracle := fun n =>
  if n = 0 then
    .ok ⟨.null, some [⟨"call_1", "issues-create", some "\x7b\"title\":\"Foo\"\x7d"⟩]⟩
  else .ok ⟨.str "", none⟩

/-- A transport whose tool replies with the JSON text of issue 7. -/
def execIssue7 : ToolExec := fun _ _ =>
  .ok ⟨some [.obj [("type", .str "text"), ("text", .str "\x7b\"id\":7\x7d")]]⟩

/-- C5 counterexample: a run that collects a tool result and then ends
with empty content; the HTTP response is the failure envelope — a
constructor carrying no tool results — so the collected results are not
reported, contrary to the claim. -/
theorem partial_results_cx :
    (chatHandler reqOneUserMsg (.ok "KEY") (.ok ())
      oracleForcedStop execIssue7).response =
      .err 502 "Assistant error" "LLM returned no content in response" ∧
    (chatHandler reqOneUserMsg (.ok "KEY") (.ok ())
      oracleForcedStop execIssue7).st.collected =
      [⟨"issues-create", .obj [("id", .num 7)]⟩] :=
  ⟨rfl, rfl⟩

/-- C5 (amended): the tool results collected during prior turns are
retained in the aggregator state up to the failure point, but the
forced-termination failure response omits them — tool results are
reported to the HTTP layer only in the success envelope, where they
equal the full collected list. -/
theorem partial_results_amended (req : ChatRequest)
    (mint : Except String String) (listToolsRes : Except String Unit)
    (oracle : ModelOracle) (exec : ToolExec) :
    (∀ body, (chatHandler req mint listToolsRes oracle exec).response =
        .ok body →
      body.toolResults =
        (chatHandler req mint listToolsRes oracle exec).st.collected) ∧
    (∀ last, (chatHandler req mint listToolsRes oracle exec).finalResp =
        some last →
      ensureString last.content = "" →
      (chatHandler req mint listToolsRes oracle exec).response =
        .err 502 "Assistant error" "LLM returned no content in response") := by
  rcases chatHandler_shape req mint listToolsRes oracle exec with
    ⟨lo, heq⟩ | ⟨⟨sC, eC, mC, herr⟩, hnone⟩
  · obtain ⟨fin, lst⟩ := lo
    constructor
    · intro body hok
      rw [heq] at hok ⊢
      rw [chatFinish_st]
      unfold chatFinish at hok
      cases fin with
      | error e =>
          dsimp only at hok
          exact absurd hok (by simp)
      | ok last' =>
          dsimp only at hok
          by_cases hrt : ensureString last'.content = ""
          · rw [if_pos hrt] at hok
            dsimp only at hok
            exact absurd hok (by simp)
          · rw [if_neg hrt] at hok
            dsimp only at hok
            simp only [HttpResponse.ok.injEq] at hok
            rw [← hok]
    · intro last hfin hempty
      rw [heq] at hfin ⊢
      unfold chatFinish at hfin ⊢
      cases fin with
      | error e =>
          dsimp only at hfin
          exact absurd hfin (by simp)
      | ok last' =>
          dsimp only at hfin ⊢
          by_cases hrt : ensureString last'.content = ""
          · rw [if_pos hrt]
          · rw [if_neg hrt] at hfin
            dsimp only at hfin
            simp only [Option.some.injEq] at hfin
            subst hfin
            exact absurd hempty hrt
  · constructor
    · intro body hok
      rw [herr] at hok
      exact absurd hok (by simp)
    · intro last hfin _
      rw [hnone] at hfin
      exact absurd hfin (by simp)

/-- C5 witness for the amended theorem: on the concrete forced-stop run
the failure envelope is returned. -/
theorem partial_results_amended_witness :
    (chatHandler reqOneUserMsg (.ok "KEY") (.ok ())
      oracleForcedStop execIssue7).response =
      .err 502 "Assistant error" "LLM returned no content in response" :=
  (partial_results_amended reqOneUserMsg (.ok "KEY") (.ok ())
    oracleForcedStop execIssue7).2 ⟨.str "", none⟩ rfl rfl

/-! ### Claim C3 -/

/-- C3: a throw from `callMcpTool` or from payload extraction does not
abort the loop.  The failing call's collected entry is its name together
with the error object carrying the thrown message; a `role:"tool"`
message with that error (serialized) is recorded under the call's id;
the remaining calls of the turn are still processed; and the loop then
issues the next model call. -/
theorem tool_error_recoverable (exec : ToolExec) (userApiKey : String)
    (call : ToolCall) (args : JVal) (msg : String)
    (hinj : injectApiKey userApiKey (resolveCallArgs call.arguments) =
      .ok args)
    (hfail : (exec call.name args).bind extractToolPayload = .error msg) :
    processCall exec userApiKey call =
      .ok (⟨call.name, args⟩,
        ⟨call.id, jsonStringify (.obj [("error", .str msg)]), call.name⟩,
        ⟨call.name, .obj [("error", .str msg)]⟩) ∧
    (∀ (rest : List ToolCall) (st : RunState) (msgs : List ToolMsgRec)
      (st' : RunState),
      runTurnCalls exec userApiKey rest
        { st with
          collected := st.collected ++
            [⟨call.name, .obj [("error", .str msg)]⟩]
          dispatches := st.dispatches ++ [⟨call.name, args⟩] } =
        .ok (msgs, st') →
      runTurnCalls exec userApiKey (call :: rest) st =
        .ok (⟨call.id, jsonStringify (.obj [("error", .str msg)]),
          call.name⟩ :: msgs, st')) ∧
    (∀ (oracle : ModelOracle) (fuel : Nat) (resp : ModelResponse)
      (st : RunState) (msgs : List ToolMsgRec) (st2 : RunState)
      (calls : List ToolCall),
      toolCallsOf resp = calls → call ∈ calls →
      runTurnCalls exec userApiKey calls
        { st with
          toolTurns := st.toolTurns + 1
          history := st.history ++ [.assistantCalls resp] } =
        .ok (msgs, st2) →
      st2.modelCalls + 1 ≤
        (chatLoop oracle exec userApiKey (fuel + 1) resp st).st.modelCalls) := by
  have hpc : processCall exec userApiKey call =
      .ok (⟨call.name, args⟩,
        ⟨call.id, jsonStringify (.obj [("error", .str msg)]), call.name⟩,
        ⟨call.name, .obj [("error", .str msg)]⟩) := by
    unfold processCall
    rw [hinj]
    dsimp only
    rw [hfail]
  refine ⟨hpc, ?_, ?_⟩
  · intro rest st msgs st' hrec
    simp only [runTurnCalls]
    rw [hpc]
    dsimp only
    rw [hrec]
  · intro oracle fuel resp st msgs st2 calls hcalls hmem hrun
    cases calls with
    | nil => cases hmem
    | cons c cs =>
        simp only [chatLoop]
        rw [hcalls]
        dsimp only
        rw [hrun]
        dsimp only
        cases horacle : oracle st2.modelCalls with
        | error e => dsimp only; omega
        | ok resp' =>
            dsimp only
            have hge := chatLoop_modelCalls_ge oracle exec userApiKey fuel resp'
              { st2 with
                history := st2.history ++ msgs.map ToolMsgRec.toChatMsg
                modelCalls := st2.modelCalls + 1 }
            dsimp only at hge
            omega

/-- C3 witness: a concrete unreachable-worker run. -/
theorem tool_error_recoverable_witness :
    processCall (fun _ _ => .error "worker unreachable") "K"
        ⟨"call_1", "issues-create", none⟩ =
      .ok (⟨"issues-create", .obj [("apiKey", .str "K")]⟩,
        ⟨"call_1",
          jsonStringify (.obj [("error", .str "worker unreachable")]),
          "issues-create"⟩,
        ⟨"issues-create", .obj [("error", .str "worker unreachable")]⟩) :=
  (tool_error_recoverable (fun _ _ => .error "worker unreachable") "K"
    ⟨"call_1", "issues-create", none⟩ (.obj [("apiKey", .str "K")])
    "worker unreachable" rfl rfl).1

/-! ### Claim C9 -/

/-- Specification-side characterization used by the amended C9: the
extraction error is governed by the *first* text-typed block alone —
it is unreadable when it lacks a string `text` field, or when no
text-typed block exists at all. -/
def specFirstTextBlockUnreadable (r : McpToolResult) : Bool :=
  match (r.content.getD []).find? isTextTyped with
  | none => true
  | some item =>
      match jvGet item "text" with
      | some (.str _) => false
      | _ => true

/-- C9 counterexample: the first text-typed block has a non-string
`text` (the number 42) while a later text-typed block carries the string
"ok"; extraction still throws, so the error is not thrown "only when no
text-typed block with a string text field exists". -/
theorem payload_extraction_cx :
    extractToolPayload
        ⟨some [.obj [("type", .str "text"), ("text", .num 42)],
          .obj [("type", .str "text"), ("text", .str "ok")]]⟩ =
      .error "Tool returned no readable text content" ∧
    isTextTyped (.obj [("type", .str "text"), ("text", .str "ok")]) = true ∧
    jvGet (.obj [("type", .str "text"), ("text", .str "ok")]) "text" =
      some (.str "ok") ∧
    (JVal.obj [("type", .str "text"), ("text", .str "ok")]) ∈
      ([.obj [("type", .str "text"), ("text", .num 42)],
        .obj [("type", .str "text"), ("text", .str "ok")]] : List JVal) :=
  ⟨rfl, rfl, rfl, List.Mem.tail _ (List.Mem.head _)⟩

/-- C9 (amended): when the first text-typed block carries empty or
whitespace-only text, extraction yields the empty object (its tool
message serializes to the two-character object braces); and the
"no readable text content" error is thrown exactly when the first
text-typed block lacks a string `text` field or no text-typed block
exists. -/
theorem payload_extraction_amended (r : McpToolResult) :
    (∀ item t, (r.content.getD []).find? isTextTyped = some item →
      jvGet item "text" = some (.str t) → jsTrim t = "" →
      extractToolPayload r = .ok (.obj [])) ∧
    (∀ (exec : ToolExec) (k : String) (call : ToolCall) (args : JVal),
      injectApiKey k (resolveCallArgs call.arguments) = .ok args →
      (exec call.name args).bind extractToolPayload = .ok (.obj []) →
      processCall exec k call =
        .ok (⟨call.name, args⟩, ⟨call.id, "\x7b\x7d", call.name⟩,
          ⟨call.name, .obj []⟩)) ∧
    (extractToolPayload r = .error "Tool returned no readable text content" ↔
      specFirstTextBlockUnreadable r = true) := by
  refine ⟨?_, ?_, ?_⟩
  · intro item t hf hg ht
    unfold extractToolPayload
    rw [hf]
    dsimp only
    have hit : isTextTyped item = true := List.find?_some hf
    rw [hit]
    simp only [Bool.not_true, Bool.false_eq_true, if_false]
    rw [hg]
    dsimp only
    rw [if_pos ht]
  · intro exec k call args hinj hb
    unfold processCall
    rw [hinj]
    dsimp only
    rw [hb]
    rfl
  · unfold extractToolPayload specFirstTextBlockUnreadable
    cases hf : (r.content.getD []).find? isTextTyped with
    | none => simp
    | some item =>
        have hit : isTextTyped item = true := List.find?_some hf
        dsimp only
        rw [hit]
        simp only [Bool.not_true, Bool.false_eq_true, if_false]
        cases hg : jvGet item "text" with
        | none => simp
        | some v =>
            cases v with
            | str t =>
                dsimp only
                constructor
                · intro hc
                  exfalso
                  revert hc
                  split
                  · intro hc; exact absurd hc (by simp)
                  · split <;> (intro hc; exact absurd hc (by simp))
                · intro hc
                  exact absurd hc (by simp)
            | null => simp
            | bool b => simp
            | num n => simp
            | arr xs => simp
            | obj fs => simp

/-- C9 witness: a whitespace-only text block at a concrete run. -/
theorem payload_extraction_amended_witness :
    extractToolPayload
        ⟨some [.obj [("type", .str "text"), ("text", .str "   ")]]⟩ =
      .ok (.obj []) :=
  (payload_extraction_amended
      ⟨some [.obj [("type", .str "text"), ("text", .str "   ")]]⟩).1
    (.obj [("type", .str "text"), ("text", .str "   ")]) "   " rfl rfl rfl

/-! ### Claim C10 -/

/-- C10: when the model API key is unset (or empty), the user is
unauthenticated, or the message list is missing, empty or contains an
invalid message, the request returns an error envelope and the
credential mint is never reached (`mintAttempted = false`): validation
strictly precedes `getOrCreateApiKey`. -/
theorem precheck_before_mint (req : ChatRequest) (mint : Except String String)
    (listToolsRes : Except String Unit) (oracle : ModelOracle)
    (exec : ToolExec)
    (h : req.aiApiKey.getD "" = "" ∨ req.user = none ∨ req.messages = none ∨
      req.messages = some [] ∨
      ∃ ms, req.messages = some ms ∧ ms.any invalidChatMessage = true) :
    (chatHandler req mint listToolsRes oracle exec).mintAttempted = false ∧
    ∃ s e m, (chatHandler req mint listToolsRes oracle exec).response =
      .err s e m := by
  obtain ⟨ai, user, msgs⟩ := req
  dsimp only at h
  unfold chatHandler
  dsimp only
  by_cases hai : ai.getD "" = ""
  · rw [if_pos hai]
    exact ⟨rfl, _, _, _, rfl⟩
  · rw [if_neg hai]
    rcases h with h | h | h | h | ⟨ms, hms, hinv⟩
    · exact absurd h hai
    · rw [h]
      exact ⟨rfl, _, _, _, rfl⟩
    · cases user with
      | none => exact ⟨rfl, _, _, _, rfl⟩
      | some u =>
          dsimp only
          rw [h]
          exact ⟨rfl, _, _, _, rfl⟩
    · cases user with
      | none => exact ⟨rfl, _, _, _, rfl⟩
      | some u =>
          dsimp only
          rw [h]
          exact ⟨rfl, _, _, _, rfl⟩
    · cases user with
      | none => exact ⟨rfl, _, _, _, rfl⟩
      | some u =>
          dsimp only
          rw [hms]
          cases ms with
          | nil => simp at hinv
          | cons m tl =>
              dsimp only
              rw [if_pos hinv]
              exact ⟨rfl, _, _, _, rfl⟩

/-- C10 witness: an unset model API key at a concrete request. -/
theorem precheck_before_mint_witness :
    (chatHandler ⟨none, some "u1", some [⟨"user", .str "hi"⟩]⟩ (.ok "K")
      (.ok ()) (fun _ => .error "x") execUnused).mintAttempted = false ∧
    ∃ s e m, (chatHandler ⟨none, some "u1", some [⟨"user", .str "hi"⟩]⟩
      (.ok "K") (.ok ()) (fun _ => .error "x") execUnused).response =
      .err s e m :=
  precheck_before_mint ⟨none, some "u1", some [⟨"user", .str "hi"⟩]⟩
    (.ok "K") (.ok ()) (fun _ => .error "x") execUnused (Or.inl rfl)

end Assistant